import Mathlib

/-!
Shallow embedding of the `data-dashboard` repository: the interactive table
engine of `src/components/BigQueryTable.tsx`, the date-normalization adapter
of `src/app/page.tsx`, and the data-acquisition function of
`src/lib/bigquery.ts`.

Records are the serialized row shape (`SerializableBigQueryRecord`), with
JavaScript `number` values of the `record_count` column modelled as `Int`
(the column holds integer counts), `null` modelled as `Option.none`, and
JavaScript strings modelled as `String`.
-/

namespace DataDashboard

/-- Column keys of `SerializableBigQueryRecord` (BigQueryTable.tsx, lines 9-14). -/
inductive Key where
  | load_date
  | source
  | record_count
  | load_status
deriving DecidableEq, Repr

/-- One serialized row: `interface SerializableBigQueryRecord` of
BigQueryTable.tsx lines 9-14 (`load_date: string | null; source: string;
record_count: number; load_status: boolean`). -/
structure Record where
  load_date : Option String
  source : String
  record_count : Int
  load_status : Bool
deriving DecidableEq, Repr

/-- A dynamically-typed JavaScript value as it appears when a record is
indexed by a column key (`item[filterKey]`): a string, a number, a boolean,
or `null`/`undefined` (collapsed into one null value, exactly as the code
treats them: it only ever tests `=== null || === undefined`). -/
inductive Value where
  | vNull
  | vStr (s : String)
  | vInt (n : Int)
  | vBool (b : Bool)
deriving DecidableEq, Repr

/-- Indexing a record by a column key (`item[filterKey]`, `a[sortConfig.key!]`). -/
def getField (r : Record) : Key → Value
  | .load_date =>
    match r.load_date with
    | none => .vNull
    | some s => .vStr s
  | .source => .vStr r.source
  | .record_count => .vInt r.record_count
  | .load_status => .vBool r.load_status

/-- JavaScript `String(v)` on the non-null values that occur in a record:
strings unchanged, numbers in decimal, booleans as "true"/"false".
(`String(null)` would be "null", but the code always null-checks first.) -/
def valueToString : Value → String
  | .vNull => "null"
  | .vStr s => s
  | .vInt n => toString n
  | .vBool b => if b then "true" else "false"

/-- JavaScript `pat.isPrefix-like` test: whether the first list is an initial
segment of the second (helper for substring search). -/
def listStartsWith : List Char → List Char → Bool
  | [], _ => true
  | _ :: _, [] => false
  | a :: as, b :: bs => a == b && listStartsWith as bs

/-- Occurrence of `pat` as a contiguous run inside `s` (helper for `strIncludes`). -/
def listContainsSub (pat : List Char) : List Char → Bool
  | [] => pat.isEmpty
  | c :: rest => listStartsWith pat (c :: rest) || listContainsSub pat rest

/-- JavaScript `s.includes(pat)`: substring containment, with
`s.includes("")` true for every `s`. -/
def strIncludes (s pat : String) : Bool :=
  listContainsSub pat.toList s.toList

/-- JavaScript `s.toLowerCase()`: character-wise lowering, implemented over
the character list so that it evaluates by plain reduction. -/
def strToLower (s : String) : String :=
  String.mk (s.toList.map Char.toLower)

/-- The filter-mapping state `filterValues : FilterValues` of BigQueryTable.tsx
line 44/57: a partial map from column key to filter text (`none` = key absent). -/
abbrev FilterValues := Key → Option String

/-- The fixed column list `columnKeys` of BigQueryTable.tsx line 144. -/
def columnKeys : List Key :=
  [.load_date, .source, .record_count, .load_status]

/-- The per-item filter test of BigQueryTable.tsx lines 69-81: a
null/undefined value never matches; otherwise
`String(itemValue).toLowerCase().includes(filterValueLower)` (the code's
boolean branch and its else branch are textually the same test). -/
def matchesFilter (item : Record) (filterKey : Key) (filterValueLower : String) : Bool :=
  match getField item filterKey with
  | .vNull => false
  | v => strIncludes (strToLower (valueToString v)) filterValueLower

/-- One pass of the `Object.entries(filterValues).forEach` loop of
BigQueryTable.tsx lines 64-83: an absent entry contributes no pass, an empty
string is falsy (`if (value)`) and contributes no pass, and otherwise the
running array is replaced by its filtered copy. -/
def applyColumnFilter (key : Key) (entry : Option String) (l : List Record) : List Record :=
  match entry with
  | none => l
  | some value =>
    if value = "" then l
    else l.filter (fun item => matchesFilter item key (strToLower value))

/-- The whole filter stage of `processedData` (BigQueryTable.tsx lines 61-83):
start from a copy of `data` and run one filtering pass per filter entry.
The entries are visited in the fixed column order; since each pass is a
pointwise `Array.prototype.filter`, the result does not depend on the
visit order. -/
def applyFilters (fv : FilterValues) (data : List Record) : List Record :=
  columnKeys.foldl (fun acc k => applyColumnFilter k (fv k) acc) data

/-- Sort direction of `SortConfig` (BigQueryTable.tsx lines 38-41). -/
inductive Direction where
  | ascending
  | descending
deriving DecidableEq, Repr

/-- The sort-configuration state `sortConfig` (BigQueryTable.tsx lines 38-41):
a nullable sort key and a direction. -/
structure SortConfig where
  key : Option Key
  direction : Direction
deriving DecidableEq, Repr

/-- Lexicographic comparison of two characters by code point, as `Int`
(-1, 0 or 1). -/
def charCmp (a b : Char) : Int :=
  if a.toNat < b.toNat then -1 else if b.toNat < a.toNat then 1 else 0

/-- Lexicographic comparison of two character lists, as `Int`. -/
def listCharCmp : List Char → List Char → Int
  | [], [] => 0
  | [], _ :: _ => -1
  | _ :: _, [] => 1
  | a :: as, b :: bs => if charCmp a b = 0 then listCharCmp as bs else charCmp a b

/-- Model of JavaScript `a.localeCompare(b)`: a locale-aware total string
comparison returning a negative, zero or positive number. It is embedded as
code-point lexicographic comparison normalized to -1/0/1; the claims depend
only on it being a total comparison, not on the particular locale table. -/
def strCompare (s t : String) : Int :=
  listCharCmp s.toList t.toList

/-- The typed part of the comparator body (BigQueryTable.tsx lines 95-105):
numbers by numeric difference, booleans with false < true, everything else by
`String(aValue).localeCompare(String(bValue))`. -/
def baseComparison : Value → Value → Int
  | .vInt a, .vInt b => a - b
  | .vBool a, .vBool b => if a = b then 0 else if a then 1 else -1
  | a, b => strCompare (valueToString a) (valueToString b)

/-- The full comparator passed to `filteredData.sort` (BigQueryTable.tsx
lines 87-108), applied to the two extracted values `aValue`, `bValue`:
null/undefined short-circuit first (ascending sends a null left), then the
typed comparison, negated (`* -1`) for descending. -/
def cmpValues (dir : Direction) (aValue bValue : Value) : Int :=
  if aValue = Value.vNull then (if dir = Direction.ascending then -1 else 1)
  else if bValue = Value.vNull then (if dir = Direction.ascending then 1 else -1)
  else
    let comparison := baseComparison aValue bValue
    if dir = Direction.ascending then comparison else comparison * -1

/-- The record comparator `(a, b) => ...` of BigQueryTable.tsx lines 87-108:
extract `a[sortConfig.key!]` and `b[sortConfig.key!]` and compare. -/
def cmpRecords (key : Key) (dir : Direction) (a b : Record) : Int :=
  cmpValues dir (getField a key) (getField b key)

/-- The boolean "a sorts no later than b" relation induced by the comparator;
`Array.prototype.sort` orders by exactly this relation when the comparator is
consistent. -/
def sortLe (key : Key) (dir : Direction) (a b : Record) : Bool :=
  cmpRecords key dir a b ≤ 0

/-- The sort stage of `processedData` (BigQueryTable.tsx lines 86-109): when a
sort key is set, sort the filtered array by the comparator (embedded as a
stable merge sort, matching the stable `Array.prototype.sort` the code relies
on); when the key is null the array passes through. -/
def processOrder (sc : SortConfig) (l : List Record) : List Record :=
  match sc.key with
  | none => l
  | some k => l.mergeSort (sortLe k sc.direction)

/-- The derived view `processedData` (BigQueryTable.tsx lines 60-112):
filter the copied input, then sort. -/
def processedData (data : List Record) (fv : FilterValues) (sc : SortConfig) : List Record :=
  processOrder sc (applyFilters fv data)

/-- The initial sort configuration (BigQueryTable.tsx line 56):
`useState<SortConfig>({ key: 'load_date', direction: 'descending' })`. -/
def initialSortConfig : SortConfig :=
  ⟨some Key.load_date, Direction.descending⟩

/-- The header-click handler `handleSort` (BigQueryTable.tsx lines 116-122):
direction becomes descending exactly when the clicked key is already the sort
key with direction ascending, and the clicked key is installed. -/
def handleSort (sortConfig : SortConfig) (key : Key) : SortConfig :=
  let direction : Direction :=
    if sortConfig.key = some key ∧ sortConfig.direction = Direction.ascending
    then Direction.descending else Direction.ascending
  ⟨some key, direction⟩

/-- Outcome of the component's render (BigQueryTable.tsx lines 133-135 and
178-210): the early-return "No initial data found to display or filter."
paragraph (zero table rows), a table whose body is the single "No records
match the current filters." row, or a table with one row per processed
record. -/
inductive RenderResult where
  | noData
  | noMatchRow
  | rows (rs : List Record)
deriving DecidableEq, Repr

/-- The render branch structure of `BigQueryTable` (the `data` prop may be
absent, `!data`, or an array): empty/absent data short-circuits before the
table, and an empty processed view renders the no-match row
(`processedData.length > 0 ? ... : ...`). -/
def render (data : Option (List Record)) (fv : FilterValues) (sc : SortConfig) : RenderResult :=
  match data with
  | none => RenderResult.noData
  | some d =>
    if d.length = 0 then RenderResult.noData
    else
      let pd := processedData d fv sc
      if pd.length > 0 then RenderResult.rows pd else RenderResult.noMatchRow

/-! ### Date parsing and display (`formatDate`, BigQueryTable.tsx lines 19-35)

JavaScript `Date` machinery is embedded as follows: a `Date` value is either
an epoch-milliseconds timestamp or the Invalid Date (`NaN`) state, written
`Option Int` with `none` for Invalid Date. `new Date(string)` never throws:
an unparseable string yields Invalid Date, `setMinutes` on an Invalid Date
keeps it invalid, and `toLocaleDateString` on an Invalid Date returns the
string "Invalid Date". The viewer's timezone is a fixed offset `tz` in
minutes, the value of `getTimezoneOffset()` (UTC minus local time). -/

/-- Numeric value of a decimal digit character. -/
def digitVal (c : Char) : Int :=
  (c.toNat : Int) - 48

/-- Gregorian leap-year test. -/
def isLeapYear (y : Int) : Bool :=
  (Int.emod y 4 == 0 && Int.emod y 100 != 0) || Int.emod y 400 == 0

/-- Number of days in a month of the proleptic Gregorian calendar. -/
def daysInMonth (y m : Int) : Int :=
  if m = 1 ∨ m = 3 ∨ m = 5 ∨ m = 7 ∨ m = 8 ∨ m = 10 ∨ m = 12 then 31
  else if m = 4 ∨ m = 6 ∨ m = 9 ∨ m = 11 then 30
  else if isLeapYear y then 29 else 28

/-- Days since 1970-01-01 of the civil date `(y, m, d)` (the standard
era-based conversion). -/
def daysFromCivil (y m d : Int) : Int :=
  let y2 := if m ≤ 2 then y - 1 else y
  let era := Int.fdiv y2 400
  let yoe := y2 - era * 400
  let mp := Int.emod (m + 9) 12
  let doy := Int.fdiv (153 * mp + 2) 5 + d - 1
  let doe := yoe * 365 + Int.fdiv yoe 4 - Int.fdiv yoe 100 + doy
  era * 146097 + doe - 719468

/-- Civil date `(y, m, d)` of a count of days since 1970-01-01 (inverse of
`daysFromCivil`). -/
def civilFromDays (z : Int) : Int × Int × Int :=
  let z2 := z + 719468
  let era := Int.fdiv z2 146097
  let doe := z2 - era * 146097
  let yoe := Int.fdiv (doe - Int.fdiv doe 1460 + Int.fdiv doe 36524 - Int.fdiv doe 146096) 365
  let y := yoe + era * 400
  let doy := doe - (365 * yoe + Int.fdiv yoe 4 - Int.fdiv yoe 100)
  let mp := Int.fdiv (5 * doy + 2) 153
  let d := doy - Int.fdiv (153 * mp + 2) 5 + 1
  let m := mp + (if mp < 10 then 3 else -9)
  (if m ≤ 2 then y + 1 else y, m, d)

/-- Zero-pad a day or month number to two digits. -/
def pad2 (n : Int) : String :=
  if 0 ≤ n ∧ n < 10 then "0" ++ toString n else toString n

/-- Zero-pad a year number to four digits (years in the claims are
four-digit, where this is plain `toString`). -/
def pad4 (n : Int) : String :=
  if 0 ≤ n ∧ n < 10 then "000" ++ toString n
  else if 0 ≤ n ∧ n < 100 then "00" ++ toString n
  else if 0 ≤ n ∧ n < 1000 then "0" ++ toString n
  else toString n

/-- Render a civil date triple in the `en-CA` locale's YYYY-MM-DD shape. -/
def civilToIso (c : Int × Int × Int) : String :=
  pad4 c.1 ++ "-" ++ pad2 c.2.1 ++ "-" ++ pad2 c.2.2

def msPerMinute : Int := 60000

def msPerDay : Int := 86400000

/-- Model of JavaScript `new Date(s)` on the strings that cross the
normalization boundary: the ECMAScript date-only form `YYYY-MM-DD` parses as
UTC midnight of that calendar day; anything else is Invalid Date (`none`).
Parsing never throws. -/
def parseDate (s : String) : Option Int :=
  match s.toList with
  | [y1, y2, y3, y4, sep1, m1, m2, sep2, d1, d2] =>
    if sep1 = '-' ∧ sep2 = '-' ∧ y1.isDigit ∧ y2.isDigit ∧ y3.isDigit ∧ y4.isDigit
        ∧ m1.isDigit ∧ m2.isDigit ∧ d1.isDigit ∧ d2.isDigit then
      let y : Int := 1000 * digitVal y1 + 100 * digitVal y2 + 10 * digitVal y3 + digitVal y4
      let m : Int := 10 * digitVal m1 + digitVal m2
      let d : Int := 10 * digitVal d1 + digitVal d2
      if 1 ≤ m ∧ m ≤ 12 ∧ 1 ≤ d ∧ d ≤ daysInMonth y m then
        some (daysFromCivil y m d * msPerDay)
      else none
    else none
  | _ => none

/-- Net effect of `date.setMinutes(date.getMinutes() + date.getTimezoneOffset())`
(BigQueryTable.tsx line 29) on the epoch timestamp under the fixed viewer
offset `tz`: reading local minutes and writing them back shifted by `tz`
adds `tz` minutes to the timestamp; an Invalid Date stays invalid. -/
def addTimezoneOffsetMinutes (tz : Int) (d : Option Int) : Option Int :=
  match d with
  | none => none
  | some t => some (t + tz * msPerMinute)

/-- Model of `date.toLocaleDateString('en-CA')` (BigQueryTable.tsx line 30):
the calendar day of the timestamp in the viewer's local time (offset `tz`
minutes behind UTC), rendered YYYY-MM-DD; on an Invalid Date it returns the
string "Invalid Date" rather than throwing. -/
def toLocaleDateStringEnCA (tz : Int) (d : Option Int) : String :=
  match d with
  | none => "Invalid Date"
  | some t => civilToIso (civilFromDays (Int.fdiv (t - tz * msPerMinute) msPerDay))

/-- `formatDate` (BigQueryTable.tsx lines 19-35) under viewer offset `tz`.
The falsy check `if (!dateString)` catches null, undefined and the empty
string. The `try` body cannot throw in JavaScript — an unparseable string
flows through as an Invalid Date and `toLocaleDateString` renders it as
"Invalid Date" — so the `catch` branch (`return dateString || 'Invalid Date'`)
is dead code and the embedding is the try-branch alone. -/
def formatDate (tz : Int) (dateString : Option String) : String :=
  match dateString with
  | none => "N/A"
  | some s =>
    if s = "" then "N/A"
    else toLocaleDateStringEnCA tz (addTimezoneOffsetMinutes tz (parseDate s))

/-- The BigQuery client's rich date wrapper (`BigQueryDate`), an object
exposing its canonical string under `value`. -/
structure BigQueryDate where
  value : String
deriving DecidableEq, Repr

/-- One raw fetched row (`interface BigQueryRecord`, bigquery.ts lines
223-228); the page-level adapter guards the date with `?.`, so the wrapper is
embedded as nullable. -/
structure BigQueryRecord where
  load_date : Option BigQueryDate
  source : String
  record_count : Int
  load_status : Bool
deriving DecidableEq, Repr

/-- The point-of-entry date adapter of `HomePage` (page.tsx lines 19-23):
`load_date: record.load_date?.value ?? null`. -/
def normalizeLoadDate (d : Option BigQueryDate) : Option String :=
  match d with
  | none => none
  | some w => some w.value

/-- The whole per-record serialization step of `HomePage` (page.tsx lines
19-23): spread the record and replace the date wrapper by its string value. -/
def serializeRecord (r : BigQueryRecord) : Record :=
  ⟨normalizeLoadDate r.load_date, r.source, r.record_count, r.load_status⟩

/-- Group a reversed digit list in threes, inserting a comma after every
third digit that has more digits following it (helper for
`intToLocaleString`). -/
def groupRev : List Char → List Char
  | c1 :: c2 :: c3 :: c4 :: rest => c1 :: c2 :: c3 :: ',' :: groupRev (c4 :: rest)
  | l => l

/-- Model of the rendered cell's `row.record_count?.toLocaleString()`
(BigQueryTable.tsx line 190) in the default en-US-style locale: decimal
digits grouped in threes with comma separators. -/
def intToLocaleString (n : Int) : String :=
  let digits := (toString n.natAbs).toList
  (if n < 0 then "-" else "") ++ String.mk (groupRev digits.reverse).reverse

/-! ### Data acquisition (`fetchBigQueryData`, bigquery.ts lines 240-293) -/

/-- The environment configuration read by `fetchBigQueryData`: each variable
is unset (`none`) or set to a string; JavaScript's `!x` treats an unset
variable and an empty string alike. -/
structure BQEnv where
  gcpProjectId : Option String
  bigqueryDataset : Option String
  bigqueryTable : Option String
  bigqueryLocation : Option String
deriving DecidableEq, Repr

/-- JavaScript truthiness test `!x` on a `string | undefined` value. -/
def envFalsy (v : Option String) : Bool :=
  match v with
  | none => true
  | some s => s = ""

/-- The configuration error message thrown by `fetchBigQueryData`
(bigquery.ts lines 247-249). -/
def configErrorMessage : String :=
  "Missing required environment variables for BigQuery connection (GCP_PROJECT_ID, BIGQUERY_DATASET, BIGQUERY_TABLE, BIGQUERY_LOCATION)"

/-- The SQL text built by `fetchBigQueryData` (bigquery.ts lines 253-264). -/
def buildQuery (projectId datasetId tableId : String) : String :=
  "\n        SELECT\n            load_date,\n            source,\n            record_count,\n            load_status\n        FROM\n            `"
    ++ projectId ++ "." ++ datasetId ++ "." ++ tableId
    ++ "`\n        ORDER BY\n            load_date DESC\n            LIMIT 100; -- Example: Limit results for performance\n    "

/-- `fetchBigQueryData` (bigquery.ts lines 240-293). The one asynchronous
collaborator, `bigqueryClient.query(options)`, is abstracted as `runQuery`,
taking the query text and the location option and returning either rows or
the underlying failure's message; the function consults it exactly once (no
retry). A thrown error is an `Except.error` carrying the thrown message. -/
def fetchBigQueryData (env : BQEnv)
    (runQuery : String → String → Except String (List BigQueryRecord)) :
    Except String (List BigQueryRecord) :=
  let datasetId := env.bigqueryDataset.getD ""
  let tableId := env.bigqueryTable.getD ""
  let projectId := env.gcpProjectId.getD ""
  let location := env.bigqueryLocation.getD ""
  if datasetId = "" ∨ tableId = "" ∨ projectId = "" ∨ location = "" then
    Except.error configErrorMessage
  else
    match runQuery (buildQuery projectId datasetId tableId) location with
    | Except.ok rows => Except.ok rows
    | Except.error e => Except.error ("Failed to fetch data from BigQuery." ++ " " ++ e)

/-! ### Array identity and in-place mutation (for the frame property)

JavaScript arrays are heap objects: `filteredData.sort(...)` mutates the
array it is called on, while `[...data]` and `Array.prototype.filter` always
allocate. The store maps an array identity (a `Nat`) to its current
contents. Records are plain serialized values and no statement in the
component assigns to a record field, so record objects need no identities of
their own. -/

abbrev Store := List (List Record)

/-- Contents currently held by array identity `r`. -/
def readArr (st : Store) (r : Nat) : List Record :=
  st.getD r []

/-- Allocate a fresh array holding `contents`; returns the new store and the
fresh identity. -/
def allocArr (st : Store) (contents : List Record) : Store × Nat :=
  (st ++ [contents], st.length)

/-- Overwrite the contents of array identity `r` (in-place mutation). -/
def writeArr (st : Store) (r : Nat) (contents : List Record) : Store :=
  st.set r contents

/-- One pass of the `forEach` filter loop at the store level: an active
filter entry rebinds `filteredData` to a freshly allocated
`Array.prototype.filter` result; an absent or empty entry leaves the binding
alone. -/
def filterPassSt (fv : FilterValues) (acc : Store × Nat) (k : Key) : Store × Nat :=
  match fv k with
  | none => acc
  | some value =>
    if value = "" then acc
    else allocArr acc.1 ((readArr acc.1 acc.2).filter (fun item => matchesFilter item k (strToLower value)))

/-- `processedData` at the store level (BigQueryTable.tsx lines 60-112):
`let filteredData = [...data]` allocates a copy, each active filter pass
allocates a new array, and `filteredData.sort(...)` mutates the current
(always freshly allocated) array in place. Returns the new store and the
identity of the array the memo yields. -/
def processedDataSt (st : Store) (dataRef : Nat) (fv : FilterValues) (sc : SortConfig) :
    Store × Nat :=
  let copied := allocArr st (readArr st dataRef)
  let filtered := columnKeys.foldl (filterPassSt fv) copied
  match sc.key with
  | none => filtered
  | some k =>
    (writeArr filtered.1 filtered.2
      ((readArr filtered.1 filtered.2).mergeSort (sortLe k sc.direction)), filtered.2)

/-- One column's contribution to the filter stage, as a pointwise predicate:
an absent or empty entry passes everything, an active entry applies the
per-item test with the lowered filter text. -/
def columnPassEntry (entry : Option String) (k : Key) (r : Record) : Bool :=
  match entry with
  | none => true
  | some text => if text = "" then true else matchesFilter r k (strToLower text)

/-- The filter predicate exactly as the specification phrases it: a record is
kept iff for each column whose filter entry is a non-empty string, the
record's value in that column, stringified (booleans as "true"/"false",
numbers in decimal) and compared case-insensitively, contains the filter text
as a substring; columns with an absent or empty entry impose no constraint; a
null value in a filtered column never matches; active filters compose with
logical AND (the `all`). -/
def specFilterPred (fv : FilterValues) (r : Record) : Bool :=
  columnKeys.all (fun k =>
    match fv k with
    | none => true
    | some text =>
      if text = "" then true
      else
        match getField r k with
        | .vNull => false
        | v => strIncludes (strToLower (valueToString v)) (strToLower text))

/-- The tolerated tie among sorted neighbours: either the comparator orders
the pair, or both records carry a null in the sort column (on such a pair the
descending comparator, being the negation of the ascending one, returns 1 in
both argument orders, so no order of the pair can satisfy it). -/
def sortedPairOk (k : Key) (d : Direction) (a b : Record) : Prop :=
  cmpRecords k d a b ≤ 0 ∨ (getField a k = Value.vNull ∧ getField b k = Value.vNull)

/-! ## Theorems -/

/-- C5: The sort-configuration state machine starts at (key = load_date,
direction = descending); clicking a column that is not the current sort key
installs that column ascending; clicking the current column flips ascending
to descending and descending back to ascending. -/
theorem sort_state_machine (cfg : SortConfig) (k : Key) :
    initialSortConfig = ⟨some Key.load_date, Direction.descending⟩ ∧
    (cfg.key ≠ some k → handleSort cfg k = ⟨some k, Direction.ascending⟩) ∧
    (cfg.key = some k → cfg.direction = Direction.ascending →
      handleSort cfg k = ⟨some k, Direction.descending⟩) ∧
    (cfg.key = some k → cfg.direction = Direction.descending →
      handleSort cfg k = ⟨some k, Direction.ascending⟩) := by
  refine ⟨rfl, ?_, ?_, ?_⟩
  · intro h
    simp [handleSort, h]
  · intro h1 h2
    simp [handleSort, h1, h2]
  · intro h1 h2
    simp [handleSort, h1, h2]

/-- Witness for C5: from the initial state, clicking the `source` header
(not the current key) starts ascending on `source`. -/
theorem sort_state_machine_witness :
    handleSort ⟨some Key.load_date, Direction.descending⟩ Key.source
      = ⟨some Key.source, Direction.ascending⟩ :=
  (sort_state_machine ⟨some Key.load_date, Direction.descending⟩ Key.source).2.1
    (by decide)

/-- Every click sequence keeps the sort key concrete: `handleSort` always
installs `some key`. -/
theorem foldl_handleSort_key_isSome :
    ∀ (clicks : List Key) (cfg : SortConfig), cfg.key.isSome = true →
      (clicks.foldl handleSort cfg).key.isSome = true := by
  intro clicks
  induction clicks with
  | nil => intro cfg h; exact h
  | cons c cs ih => intro cfg _; exact ih (handleSort cfg c) rfl

/-- C9: In the initial state and after every sequence of header clicks the
sort key is a concrete column (never null), so on every reachable
configuration the derivation takes the sorting branch — the "no sort key set,
array passes through" branch of `processOrder` is unreachable through the UI. -/
theorem sort_key_invariant (clicks : List Key) :
    ∃ k, (clicks.foldl handleSort initialSortConfig).key = some k ∧
      ∀ l : List Record,
        processOrder (clicks.foldl handleSort initialSortConfig) l
          = l.mergeSort (sortLe k (clicks.foldl handleSort initialSortConfig).direction) := by
  have h := foldl_handleSort_key_isSome clicks initialSortConfig rfl
  cases hk : (clicks.foldl handleSort initialSortConfig).key with
  | none => rw [hk] at h; simp at h
  | some k => exact ⟨k, rfl, fun l => by simp [processOrder, hk]⟩

/-- C3 counterexample: on the unparseable non-empty string "garbage" the
formatter returns "Invalid Date", not the raw input string the claim asserts
— in JavaScript the `try` body cannot throw (an unparseable string becomes an
Invalid Date which `toLocaleDateString` renders as "Invalid Date"), so the
`catch` fallback `return dateString || 'Invalid Date'` never runs. -/
theorem formatDate_fallback_counterexample :
    formatDate 0 (some "garbage") = "Invalid Date" ∧
    formatDate 0 (some "garbage") ≠ "garbage" := by
  constructor
  · rfl
  · decide

/-- C3 (amended): a null/undefined or empty input yields "N/A"; a non-empty
string that fails to parse does not throw, and yields the string
"Invalid Date" (produced by `toLocaleDateString` on the Invalid Date), not
the raw input. -/
theorem formatDate_error_handling (tz : Int) (s : String) :
    formatDate tz none = "N/A" ∧
    formatDate tz (some "") = "N/A" ∧
    (s ≠ "" → parseDate s = none → formatDate tz (some s) = "Invalid Date") := by
  refine ⟨rfl, rfl, ?_⟩
  intro h1 h2
  simp [formatDate, h1, h2, addTimezoneOffsetMinutes, toLocaleDateStringEnCA]

/-- Witness for C3 at the concrete unparseable string "2024-13-01"
(month 13 does not parse). -/
theorem formatDate_error_handling_witness :
    ("2024-13-01" : String) ≠ "" ∧ parseDate "2024-13-01" = none ∧
    formatDate 0 (some "2024-13-01") = "Invalid Date" :=
  ⟨by decide, by rfl, (formatDate_error_handling 0 "2024-13-01").2.2 (by decide) (by rfl)⟩

/-- C4: Normalizing a warehouse date wrapper whose canonical value is
"2024-03-15" (the adapter extracting its string value) and then applying the
display formatter yields exactly "2024-03-15" for every viewer timezone
offset: the `setMinutes` correction adds `tz` minutes to the UTC-midnight
timestamp, and rendering in local time subtracts them again. -/
theorem date_roundtrip (tz : Int) :
    formatDate tz (normalizeLoadDate (some ⟨"2024-03-15"⟩)) = "2024-03-15" := by
  have hp : parseDate "2024-03-15" = some 1710460800000 := by rfl
  have hcancel : (1710460800000 : Int) + tz * msPerMinute - tz * msPerMinute
      = 1710460800000 := by ring
  show formatDate tz (some "2024-03-15") = "2024-03-15"
  simp only [formatDate]
  rw [if_neg (by decide : ¬("2024-03-15" : String) = "")]
  rw [hp]
  simp only [addTimezoneOffsetMinutes, toLocaleDateStringEnCA]
  rw [hcancel]
  rfl

/-- Empty input sorts to empty output whatever the configuration. -/
theorem processOrder_nil (sc : SortConfig) : processOrder sc [] = [] := by
  cases hk : sc.key <;> simp [processOrder, hk]

/-- C6: An absent or empty input renders the "No initial data found" message
(zero table rows), and a non-empty input whose active filters eliminate every
row renders the "No records match the current filters" row instead of an
empty table body. -/
theorem empty_render_messages (fv : FilterValues) (sc : SortConfig) (d : List Record) :
    render none fv sc = RenderResult.noData ∧
    render (some []) fv sc = RenderResult.noData ∧
    (d ≠ [] → applyFilters fv d = [] → render (some d) fv sc = RenderResult.noMatchRow) := by
  refine ⟨rfl, rfl, ?_⟩
  intro h1 h2
  have hp : processedData d fv sc = [] := by
    simp [processedData, h2, processOrder_nil]
  simp only [render]
  rw [if_neg (by simpa using h1), hp]
  rfl

/-- Witness for C6: one row whose `source` is "A", filtered by source text
"zz", renders the no-match row. -/
theorem empty_render_messages_witness :
    render (some [⟨some "2024-01-01", "A", 10, true⟩])
      (fun k => match k with | Key.source => some "zz" | _ => none) initialSortConfig
      = RenderResult.noMatchRow :=
  (empty_render_messages
      (fun k => match k with | Key.source => some "zz" | _ => none) initialSortConfig
      [⟨some "2024-01-01", "A", 10, true⟩]).2.2 (by decide) (by rfl)

/-- C8: `fetchBigQueryData` demands all four configuration values: if any is
absent (or empty, which JavaScript's falsy test treats alike) the result is
the configuration error, independent of the query collaborator — no query
runs. With a complete configuration the result is the single query outcome,
a failure being wrapped once in the descriptive message; the collaborator is
consulted exactly once, so there is no retry. -/
theorem fetchBigQueryData_errors (env : BQEnv)
    (q : String → String → Except String (List BigQueryRecord)) :
    ((envFalsy env.bigqueryDataset = true ∨ envFalsy env.bigqueryTable = true ∨
      envFalsy env.gcpProjectId = true ∨ envFalsy env.bigqueryLocation = true) →
      fetchBigQueryData env q = Except.error configErrorMessage) ∧
    (envFalsy env.bigqueryDataset = false → envFalsy env.bigqueryTable = false →
      envFalsy env.gcpProjectId = false → envFalsy env.bigqueryLocation = false →
      fetchBigQueryData env q =
        match q (buildQuery (env.gcpProjectId.getD "") (env.bigqueryDataset.getD "")
            (env.bigqueryTable.getD "")) (env.bigqueryLocation.getD "") with
        | Except.ok rows => Except.ok rows
        | Except.error e =>
          Except.error ("Failed to fetch data from BigQuery." ++ " " ++ e)) := by
  have hiff : ∀ v : Option String, envFalsy v = true ↔ v.getD "" = "" := by
    intro v; cases v <;> simp [envFalsy]
  constructor
  · intro h
    have : env.bigqueryDataset.getD "" = "" ∨ env.bigqueryTable.getD "" = "" ∨
        env.gcpProjectId.getD "" = "" ∨ env.bigqueryLocation.getD "" = "" := by
      rcases h with h | h | h | h
      · exact Or.inl ((hiff _).mp h)
      · exact Or.inr (Or.inl ((hiff _).mp h))
      · exact Or.inr (Or.inr (Or.inl ((hiff _).mp h)))
      · exact Or.inr (Or.inr (Or.inr ((hiff _).mp h)))
    simp only [fetchBigQueryData]
    rw [if_pos this]
  · intro h1 h2 h3 h4
    have n : ∀ v : Option String, envFalsy v = false → ¬ v.getD "" = "" := by
      intro v hv hc
      rw [← hiff v] at hc
      rw [hv] at hc
      exact Bool.false_ne_true hc
    simp only [fetchBigQueryData]
    rw [if_neg]
    rintro (hc | hc | hc | hc)
    · exact n _ h1 hc
    · exact n _ h2 hc
    · exact n _ h3 hc
    · exact n _ h4 hc

/-- Witness for C8: a complete configuration with a failing query yields the
single wrapped error message. -/
theorem fetchBigQueryData_errors_witness :
    fetchBigQueryData ⟨some "p", some "d", some "t", some "eu"⟩
      (fun _ _ => Except.error "boom")
      = Except.error "Failed to fetch data from BigQuery. boom" :=
  ((fetchBigQueryData_errors ⟨some "p", some "d", some "t", some "eu"⟩
      (fun _ _ => Except.error "boom")).2 rfl rfl rfl rfl).trans rfl

/-- C10: The filter stage matches `record_count` against its plain decimal
stringification, not against the locale-grouped text the cell displays: a
record with count 1000 is kept by filter text "1000" and removed by filter
text "1,000", even though the rendered cell shows "1,000". -/
theorem record_count_filter_plain_string (r : Record) (h : r.record_count = 1000) :
    applyFilters (fun k => if k = Key.record_count then some "1000" else none) [r] = [r] ∧
    applyFilters (fun k => if k = Key.record_count then some "1,000" else none) [r] = [] ∧
    intToLocaleString r.record_count = "1,000" := by
  have hg : getField r Key.record_count = Value.vInt 1000 := by
    simp [getField, h]
  have hp : matchesFilter r Key.record_count (strToLower "1000") = true := by
    unfold matchesFilter
    rw [hg]
    rfl
  have hq : matchesFilter r Key.record_count (strToLower "1,000") = false := by
    unfold matchesFilter
    rw [hg]
    rfl
  refine ⟨?_, ?_, by rw [h]; rfl⟩
  · simp [applyFilters, columnKeys, applyColumnFilter, hp]
  · simp [applyFilters, columnKeys, applyColumnFilter, hq]

/-- Witness for C10 at a concrete record with count 1000. -/
theorem record_count_filter_plain_string_witness :
    applyFilters (fun k => if k = Key.record_count then some "1000" else none)
      [⟨some "2024-01-01", "A", 1000, true⟩] = [⟨some "2024-01-01", "A", 1000, true⟩] :=
  (record_count_filter_plain_string ⟨some "2024-01-01", "A", 1000, true⟩ rfl).1

/-- One filter pass is a pointwise `filter` by the column's pass predicate. -/
theorem applyColumnFilter_eq_filter (k : Key) (o : Option String) (l : List Record) :
    applyColumnFilter k o l = l.filter (fun r => columnPassEntry o k r) := by
  cases o with
  | none => simp [applyColumnFilter, columnPassEntry]
  | some text =>
    by_cases h : text = ""
    · simp [applyColumnFilter, columnPassEntry, h]
    · simp [applyColumnFilter, columnPassEntry, h]

/-- Sequential filter passes collapse into one filter by the conjunction of
the pass predicates. -/
theorem foldl_applyColumnFilter (fv : FilterValues) :
    ∀ (ks : List Key) (l : List Record),
      ks.foldl (fun acc k => applyColumnFilter k (fv k) acc) l
        = l.filter (fun r => ks.all (fun k => columnPassEntry (fv k) k r)) := by
  intro ks
  induction ks with
  | nil => intro l; simp
  | cons k ks ih =>
    intro l
    rw [List.foldl_cons, ih, applyColumnFilter_eq_filter, List.filter_filter]
    congr 1
    funext r
    simp only [List.all_cons]
    rw [Bool.and_comm]

/-- C1: The filter stage returns exactly the subset of input records
satisfying the specification's predicate — for each column whose filter entry
is a non-empty string, the stringified value compared case-insensitively
contains the filter text as a substring; absent/empty entries impose no
constraint, a null value never matches, and active filters compose with AND. -/
theorem filter_stage_eq_spec (fv : FilterValues) (data : List Record) :
    applyFilters fv data = data.filter (fun r => specFilterPred fv r) := by
  unfold applyFilters
  rw [foldl_applyColumnFilter]
  rfl

/-- Trichotomy of the character comparison. -/
theorem charCmp_cases (a b : Char) :
    (charCmp a b = -1 ∧ a.toNat < b.toNat) ∨ (charCmp a b = 0 ∧ a.toNat = b.toNat) ∨
    (charCmp a b = 1 ∧ b.toNat < a.toNat) := by
  unfold charCmp
  split_ifs <;> omega

/-- Swapping the arguments negates the list comparison. -/
theorem listCharCmp_flip : ∀ (as bs : List Char), listCharCmp bs as = -(listCharCmp as bs) := by
  intro as
  induction as with
  | nil => intro bs; cases bs <;> simp [listCharCmp]
  | cons a as ih =>
    intro bs
    cases bs with
    | nil => simp [listCharCmp]
    | cons b bs =>
      simp only [listCharCmp]
      rcases charCmp_cases a b with ⟨e1, o1⟩ | ⟨e1, o1⟩ | ⟨e1, o1⟩ <;>
        rcases charCmp_cases b a with ⟨e2, o2⟩ | ⟨e2, o2⟩ | ⟨e2, o2⟩ <;>
        rw [e1, e2] <;> simp [ih bs] <;> omega

/-- Transitivity of the nonpositive side of the list comparison. -/
theorem listCharCmp_le_trans : ∀ (as bs cs : List Char),
    listCharCmp as bs ≤ 0 → listCharCmp bs cs ≤ 0 → listCharCmp as cs ≤ 0 := by
  intro as
  induction as with
  | nil =>
    intro bs cs _ _
    cases cs <;> simp [listCharCmp]
  | cons a as ih =>
    intro bs cs h1 h2
    cases bs with
    | nil => exact absurd h1 (by simp [listCharCmp])
    | cons b bs =>
      cases cs with
      | nil => exact absurd h2 (by simp [listCharCmp])
      | cons c cs =>
        simp only [listCharCmp] at h1 h2 ⊢
        rcases charCmp_cases a b with ⟨e1, o1⟩ | ⟨e1, o1⟩ | ⟨e1, o1⟩ <;>
          rcases charCmp_cases b c with ⟨e2, o2⟩ | ⟨e2, o2⟩ | ⟨e2, o2⟩ <;>
          rcases charCmp_cases a c with ⟨e3, o3⟩ | ⟨e3, o3⟩ | ⟨e3, o3⟩ <;>
          rw [e1] at h1 <;> rw [e2] at h2 <;> rw [e3] <;>
          (try simp at h1) <;> (try simp at h2) <;> (try simp) <;>
          first
            | omega
            | exact ih bs cs h1 h2

/-- Transitivity of the nonnegative side, via the flip. -/
theorem listCharCmp_ge_trans {x y z : List Char}
    (h1 : 0 ≤ listCharCmp x y) (h2 : 0 ≤ listCharCmp y z) : 0 ≤ listCharCmp x z := by
  have f1 := listCharCmp_flip x y
  have f2 := listCharCmp_flip y z
  have f3 := listCharCmp_flip x z
  have := listCharCmp_le_trans z y x (by omega) (by omega)
  omega

/-- Flip of the string comparison. -/
theorem strCompare_flip (s t : String) : strCompare t s = -(strCompare s t) :=
  listCharCmp_flip s.toList t.toList

/-- Transitivity of the nonpositive side of the string comparison. -/
theorem strCompare_le_trans {s t u : String}
    (h1 : strCompare s t ≤ 0) (h2 : strCompare t u ≤ 0) : strCompare s u ≤ 0 :=
  listCharCmp_le_trans s.toList t.toList u.toList h1 h2

/-- Transitivity of the nonnegative side of the string comparison. -/
theorem strCompare_ge_trans {s t u : String}
    (h1 : 0 ≤ strCompare s t) (h2 : 0 ≤ strCompare t u) : 0 ≤ strCompare s u :=
  listCharCmp_ge_trans h1 h2

/-- The descending comparator is the pointwise negation of the ascending one
(the null branches with their direction conditionals produce exactly the
negated values). -/
theorem cmpValues_descending_neg (va vb : Value) :
    cmpValues Direction.descending va vb = -(cmpValues Direction.ascending va vb) := by
  by_cases h1 : va = Value.vNull <;> by_cases h2 : vb = Value.vNull <;>
    simp [cmpValues, h1, h2]

/-- A pair the comparator accepts is a correctly sorted pair. -/
theorem sortLe_true_ok (k : Key) (d : Direction) (a b : Record) :
    sortLe k d a b = true → sortedPairOk k d a b := by
  intro h
  exact Or.inl (by simpa [sortLe] using h)

/-- A pair the comparator rejects is correctly sorted the other way round —
except that two records both null in the sort column are rejected in both
orders under descending, which is exactly the tolerated tie. -/
theorem sortLe_false_ok (k : Key) (d : Direction) (a b : Record) :
    sortLe k d a b = false → sortedPairOk k d b a := by
  intro h
  have hcmp : ¬ cmpRecords k d a b ≤ 0 := by simpa [sortLe] using h
  cases k with
  | load_date =>
    cases hda : a.load_date with
    | none =>
      cases hdb : b.load_date with
      | none => exact Or.inr ⟨by simp [getField, hdb], by simp [getField, hda]⟩
      | some sb =>
        cases d with
        | ascending =>
          exact absurd (by simp [cmpRecords, cmpValues, getField, hda]) hcmp
        | descending =>
          exact Or.inl (by simp [cmpRecords, cmpValues, getField, hda, hdb])
    | some sa =>
      cases hdb : b.load_date with
      | none =>
        cases d with
        | ascending =>
          exact Or.inl (by simp [cmpRecords, cmpValues, getField, hda, hdb])
        | descending =>
          exact absurd (by simp [cmpRecords, cmpValues, getField, hda, hdb]) hcmp
      | some sb =>
        refine Or.inl ?_
        have hf := strCompare_flip sa sb
        cases d with
        | ascending =>
          simp [cmpRecords, cmpValues, getField, hda, hdb, baseComparison,
            valueToString] at hcmp ⊢
          omega
        | descending =>
          simp [cmpRecords, cmpValues, getField, hda, hdb, baseComparison,
            valueToString] at hcmp ⊢
          omega
  | source =>
    refine Or.inl ?_
    have hf := strCompare_flip a.source b.source
    cases d with
    | ascending =>
      simp [cmpRecords, cmpValues, getField, baseComparison, valueToString] at hcmp ⊢
      omega
    | descending =>
      simp [cmpRecords, cmpValues, getField, baseComparison, valueToString] at hcmp ⊢
      omega
  | record_count =>
    refine Or.inl ?_
    cases d with
    | ascending =>
      simp [cmpRecords, cmpValues, getField, baseComparison] at hcmp ⊢
      omega
    | descending =>
      simp [cmpRecords, cmpValues, getField, baseComparison] at hcmp ⊢
      omega
  | load_status =>
    refine Or.inl ?_
    cases hba : a.load_status <;> cases hbb : b.load_status <;> cases d <;>
      simp [cmpRecords, cmpValues, getField, baseComparison, hba, hbb] at hcmp ⊢

/-- The sorted-pair relation is transitive. -/
theorem sortedPairOk_trans (k : Key) (d : Direction) :
    ∀ a b c : Record, sortedPairOk k d a b → sortedPairOk k d b c → sortedPairOk k d a c := by
  intro a b c h1 h2
  cases k with
  | record_count =>
    have h1c : cmpRecords Key.record_count d a b ≤ 0 := by
      rcases h1 with h1 | ⟨hn, _⟩
      · exact h1
      · exact absurd hn (by simp [getField])
    have h2c : cmpRecords Key.record_count d b c ≤ 0 := by
      rcases h2 with h2 | ⟨hn, _⟩
      · exact h2
      · exact absurd hn (by simp [getField])
    refine Or.inl ?_
    cases d with
    | ascending =>
      simp [cmpRecords, cmpValues, getField, baseComparison] at h1c h2c ⊢
      omega
    | descending =>
      simp [cmpRecords, cmpValues, getField, baseComparison] at h1c h2c ⊢
      omega
  | load_status =>
    have h1c : cmpRecords Key.load_status d a b ≤ 0 := by
      rcases h1 with h1 | ⟨hn, _⟩
      · exact h1
      · exact absurd hn (by simp [getField])
    have h2c : cmpRecords Key.load_status d b c ≤ 0 := by
      rcases h2 with h2 | ⟨hn, _⟩
      · exact h2
      · exact absurd hn (by simp [getField])
    refine Or.inl ?_
    cases hba : a.load_status <;> cases hbb : b.load_status <;> cases hbc : c.load_status <;>
      cases d <;>
      simp [cmpRecords, cmpValues, getField, baseComparison, hba, hbb, hbc] at h1c h2c ⊢
  | source =>
    have h1c : cmpRecords Key.source d a b ≤ 0 := by
      rcases h1 with h1 | ⟨hn, _⟩
      · exact h1
      · exact absurd hn (by simp [getField])
    have h2c : cmpRecords Key.source d b c ≤ 0 := by
      rcases h2 with h2 | ⟨hn, _⟩
      · exact h2
      · exact absurd hn (by simp [getField])
    refine Or.inl ?_
    cases d with
    | ascending =>
      simp [cmpRecords, cmpValues, getField, baseComparison, valueToString] at h1c h2c ⊢
      exact strCompare_le_trans h1c h2c
    | descending =>
      simp [cmpRecords, cmpValues, getField, baseComparison, valueToString] at h1c h2c ⊢
      have hxy : 0 ≤ strCompare a.source b.source := by omega
      have hyz : 0 ≤ strCompare b.source c.source := by omega
      have := strCompare_ge_trans hxy hyz
      omega
  | load_date =>
    cases d with
    | ascending =>
      cases hda : a.load_date with
      | none => exact Or.inl (by simp [cmpRecords, cmpValues, getField, hda])
      | some sa =>
        have h1c : cmpRecords Key.load_date Direction.ascending a b ≤ 0 := by
          rcases h1 with h1 | ⟨hn, _⟩
          · exact h1
          · exact absurd hn (by simp [getField, hda])
        cases hdb : b.load_date with
        | none =>
          exact absurd h1c (by simp [cmpRecords, cmpValues, getField, hda, hdb])
        | some sb =>
          have h2c : cmpRecords Key.load_date Direction.ascending b c ≤ 0 := by
            rcases h2 with h2 | ⟨hn, _⟩
            · exact h2
            · exact absurd hn (by simp [getField, hdb])
          cases hdc : c.load_date with
          | none =>
            exact absurd h2c (by simp [cmpRecords, cmpValues, getField, hdb, hdc])
          | some sc =>
            refine Or.inl ?_
            simp [cmpRecords, cmpValues, getField, hda, hdb, hdc, baseComparison,
              valueToString] at h1c h2c ⊢
            exact strCompare_le_trans h1c h2c
    | descending =>
      cases hda : a.load_date with
      | none =>
        rcases h1 with h1 | ⟨_, hbn⟩
        · exact absurd h1 (by simp [cmpRecords, cmpValues, getField, hda])
        · rcases h2 with h2 | ⟨_, hcn⟩
          · exact absurd h2 (by simp [cmpRecords, cmpValues, hbn])
          · exact Or.inr ⟨by simp [getField, hda], hcn⟩
      | some sa =>
        have h1c : cmpRecords Key.load_date Direction.descending a b ≤ 0 := by
          rcases h1 with h1 | ⟨hn, _⟩
          · exact h1
          · exact absurd hn (by simp [getField, hda])
        cases hdb : b.load_date with
        | none =>
          rcases h2 with h2 | ⟨_, hcn⟩
          · exact absurd h2 (by simp [cmpRecords, cmpValues, getField, hdb])
          · refine Or.inl ?_
            simp only [cmpRecords]
            rw [hcn]
            simp [cmpValues, getField, hda]
        | some sb =>
          have h2c : cmpRecords Key.load_date Direction.descending b c ≤ 0 := by
            rcases h2 with h2 | ⟨hn, _⟩
            · exact h2
            · exact absurd hn (by simp [getField, hdb])
          cases hdc : c.load_date with
          | none => exact Or.inl (by simp [cmpRecords, cmpValues, getField, hda, hdc])
          | some sc =>
            refine Or.inl ?_
            simp [cmpRecords, cmpValues, getField, hda, hdb, hdc, baseComparison,
              valueToString] at h1c h2c ⊢
            have hxy : 0 ≤ strCompare sa sb := by omega
            have hyz : 0 ≤ strCompare sb sc := by omega
            have := strCompare_ge_trans hxy hyz
            omega

/-- Merging two lists that are pairwise `R`-ordered yields a pairwise
`R`-ordered list, provided `R` is transitive and bridges the boolean
comparator in both directions (acceptance gives `R` forwards, rejection gives
`R` backwards). Unlike the library lemma this does not require the comparator
itself to be total, which the descending record comparator is not on
null-null pairs. -/
theorem pairwise_merge_general {α : Type _} {le : α → α → Bool} {R : α → α → Prop}
    (br1 : ∀ a b, le a b = true → R a b)
    (br2 : ∀ a b, le a b = false → R b a)
    (tr : ∀ a b c, R a b → R b c → R a c) :
    ∀ l1 l2 : List α, l1.Pairwise R → l2.Pairwise R → (List.merge l1 l2 le).Pairwise R := by
  intro l1
  induction l1 with
  | nil => intro l2 _ h2; simpa [List.merge] using h2
  | cons x xs ihx =>
    intro l2 h1
    induction l2 with
    | nil => intro _; simpa [List.merge] using h1
    | cons y ys ihy =>
      intro h2
      rw [List.cons_merge_cons]
      by_cases hle : le x y = true
      · rw [if_pos hle]
        refine List.Pairwise.cons ?_ (ihx (y :: ys) h1.tail h2)
        intro z hz
        rcases List.mem_merge.mp hz with hz | hz
        · exact List.rel_of_pairwise_cons h1 hz
        · rcases List.mem_cons.mp hz with rfl | hz
          · exact br1 x z hle
          · exact tr _ _ _ (br1 x y hle) (List.rel_of_pairwise_cons h2 hz)
      · have hf : le x y = false := by simpa using hle
        rw [if_neg hle]
        refine List.Pairwise.cons ?_ (ihy h2.tail)
        intro z hz
        rcases List.mem_merge.mp hz with hz | hz
        · rcases List.mem_cons.mp hz with rfl | hz
          · exact br2 _ _ hf
          · exact tr _ _ _ (br2 _ _ hf) (List.rel_of_pairwise_cons h1 hz)
        · exact List.rel_of_pairwise_cons h2 hz

/-- The merge sort of any list is pairwise `R`-ordered under the same
bridging hypotheses. -/
theorem pairwise_mergeSort_general {α : Type _} {le : α → α → Bool} {R : α → α → Prop}
    (br1 : ∀ a b, le a b = true → R a b)
    (br2 : ∀ a b, le a b = false → R b a)
    (tr : ∀ a b c, R a b → R b c → R a c) :
    ∀ l : List α, (l.mergeSort le).Pairwise R
  | [] => by simp
  | [a] => by simp
  | a :: b :: xs => by
    have hl1 : (List.splitInTwo ⟨a :: b :: xs, rfl⟩).1.1.length < xs.length + 1 + 1 := by
      simp [List.splitInTwo_fst]
      omega
    have hl2 : (List.splitInTwo ⟨a :: b :: xs, rfl⟩).2.1.length < xs.length + 1 + 1 := by
      simp [List.splitInTwo_snd]
      omega
    rw [List.mergeSort]
    exact pairwise_merge_general br1 br2 tr _ _
      (pairwise_mergeSort_general br1 br2 tr _)
      (pairwise_mergeSort_general br1 br2 tr _)
termination_by l => l.length

/-- An ascending sorted pair never puts a non-null before a null. -/
theorem sortedPairOk_null_first (k : Key) (a b : Record) :
    sortedPairOk k Direction.ascending a b →
      getField b k = Value.vNull → getField a k = Value.vNull := by
  rintro (h | ⟨ha, _⟩) hbn
  · by_contra han
    rw [cmpRecords, hbn] at h
    simp [cmpValues, han] at h
  · exact ha

/-- A descending sorted pair never puts a null before a non-null. -/
theorem sortedPairOk_null_last (k : Key) (a b : Record) :
    sortedPairOk k Direction.descending a b →
      getField a k = Value.vNull → getField b k = Value.vNull := by
  rintro (h | ⟨_, hb⟩) han
  · rw [cmpRecords, han] at h
    simp [cmpValues] at h
  · exact hb

/-- C2 counterexample: the claim's adjacent-pair consistency fails as stated.
On two records whose `load_date` is null, sorted descending by `load_date`,
the comparator returns 1 on the adjacent pair in either order (both null
branches answer "greater" under descending), so the output cannot be — and is
not — pairwise ordered by the comparator. -/
theorem sort_adjacent_pairs_counterexample :
    ¬ (processOrder ⟨some Key.load_date, Direction.descending⟩
        [⟨none, "B", 5, false⟩, ⟨none, "C", 7, true⟩]).Pairwise
        (fun a b => cmpRecords Key.load_date Direction.descending a b ≤ 0) := by
  intro hpw
  have hperm : (processOrder ⟨some Key.load_date, Direction.descending⟩
      [⟨none, "B", 5, false⟩, ⟨none, "C", 7, true⟩]).Perm
      [⟨none, "B", 5, false⟩, ⟨none, "C", 7, true⟩] := by
    simpa [processOrder] using
      List.mergeSort_perm [(⟨none, "B", 5, false⟩ : Record), ⟨none, "C", 7, true⟩]
        (sortLe Key.load_date Direction.descending)
  have hnull : ∀ r ∈ processOrder ⟨some Key.load_date, Direction.descending⟩
      [⟨none, "B", 5, false⟩, ⟨none, "C", 7, true⟩], r.load_date = none := by
    intro r hr
    have hm := hperm.mem_iff.mp hr
    simp at hm
    rcases hm with rfl | rfl <;> rfl
  have hlen : (processOrder ⟨some Key.load_date, Direction.descending⟩
      [⟨none, "B", 5, false⟩, ⟨none, "C", 7, true⟩]).length = 2 := by
    simpa using hperm.length_eq
  rcases hout : processOrder ⟨some Key.load_date, Direction.descending⟩
      [⟨none, "B", 5, false⟩, ⟨none, "C", 7, true⟩] with _ | ⟨x, _ | ⟨y, rest⟩⟩
  · rw [hout] at hlen; simp at hlen
  · rw [hout] at hlen; simp at hlen
  · rw [hout] at hlen hpw hnull
    have hrest : rest = [] := by simpa using hlen
    subst hrest
    have hrel : cmpRecords Key.load_date Direction.descending x y ≤ 0 :=
      List.rel_of_pairwise_cons hpw (by simp)
    have hx : x.load_date = none := hnull x (by simp)
    have hy : y.load_date = none := hnull y (by simp)
    simp [cmpRecords, cmpValues, getField, hx, hy] at hrel

/-- C2 (amended): for every filtered array, sort key and direction, the sort
stage returns a permutation of its input in which the descending comparator
is the pointwise negation of the ascending one, every adjacent pair (indeed
every ordered pair) either satisfies the direction's comparator or consists
of two records both null in the sort column (the one tie the descending
comparator cannot order), and nulls come before all non-null values when
ascending and after them when descending. -/
theorem sort_stage_spec (l : List Record) (k : Key) (d : Direction) :
    (∀ a b : Record,
      cmpRecords k Direction.descending a b = -(cmpRecords k Direction.ascending a b)) ∧
    (processOrder ⟨some k, d⟩ l).Perm l ∧
    (processOrder ⟨some k, d⟩ l).Pairwise (sortedPairOk k d) ∧
    (d = Direction.ascending →
      (processOrder ⟨some k, d⟩ l).Pairwise
        (fun a b => getField b k = Value.vNull → getField a k = Value.vNull)) ∧
    (d = Direction.descending →
      (processOrder ⟨some k, d⟩ l).Pairwise
        (fun a b => getField a k = Value.vNull → getField b k = Value.vNull)) := by
  have hpw : (processOrder ⟨some k, d⟩ l).Pairwise (sortedPairOk k d) := by
    simp only [processOrder]
    exact pairwise_mergeSort_general (sortLe_true_ok k d) (sortLe_false_ok k d)
      (sortedPairOk_trans k d) l
  refine ⟨fun a b => cmpValues_descending_neg _ _, ?_, hpw, ?_, ?_⟩
  · simp only [processOrder]
    exact List.mergeSort_perm l _
  · rintro rfl
    exact hpw.imp (fun h => sortedPairOk_null_first k _ _ h)
  · rintro rfl
    exact hpw.imp (fun h => sortedPairOk_null_last k _ _ h)

/-- Witness for C2: the null-placement part instantiated at a concrete
descending sort. -/
theorem sort_stage_spec_witness :
    (processOrder ⟨some Key.load_date, Direction.descending⟩
      [⟨none, "B", 5, false⟩, ⟨some "2024-01-01", "A", 10, true⟩]).Pairwise
      (fun a b => getField a Key.load_date = Value.vNull →
        getField b Key.load_date = Value.vNull) :=
  (sort_stage_spec [⟨none, "B", 5, false⟩, ⟨some "2024-01-01", "A", 10, true⟩]
    Key.load_date Direction.descending).2.2.2.2 rfl

/-- Allocation does not disturb any existing array's contents. -/
theorem readArr_alloc (st : Store) (c : List Record) {i : Nat} (h : i < st.length) :
    readArr (st ++ [c]) i = readArr st i := by
  simp only [readArr]
  exact List.getD_append st [c] [] i h

/-- Writing one array does not disturb a different one. -/
theorem readArr_write_ne (st : Store) (r : Nat) (c : List Record) {i : Nat} (h : i ≠ r) :
    readArr (writeArr st r c) i = readArr st i := by
  simp only [readArr, writeArr]
  rw [List.getD_eq_getElem?_getD, List.getD_eq_getElem?_getD,
    List.getElem?_set_ne (Ne.symm h)]

/-- One filter pass only ever allocates: the store grows, the running binding
stays a fresh array, and every pre-existing array keeps its contents. -/
theorem filterPassSt_inv (fv : FilterValues) (st : Store) {i : Nat} (hi : i < st.length)
    (acc : Store × Nat) (k : Key)
    (h1 : st.length ≤ acc.1.length) (h2 : st.length ≤ acc.2)
    (h3 : readArr acc.1 i = readArr st i) :
    st.length ≤ (filterPassSt fv acc k).1.length ∧
    st.length ≤ (filterPassSt fv acc k).2 ∧
    readArr (filterPassSt fv acc k).1 i = readArr st i := by
  cases hk : fv k with
  | none =>
    refine ⟨?_, ?_, ?_⟩ <;> simp only [filterPassSt, hk] <;> assumption
  | some v =>
    by_cases hv : v = ""
    · refine ⟨?_, ?_, ?_⟩ <;> simp only [filterPassSt, hk] <;> rw [if_pos hv] <;> assumption
    · have hlen : i < acc.1.length := lt_of_lt_of_le hi h1
      refine ⟨?_, ?_, ?_⟩ <;> simp only [filterPassSt, hk] <;> rw [if_neg hv]
      · simp only [allocArr, List.length_append, List.length_cons, List.length_nil]
        omega
      · simpa [allocArr] using h1
      · simp only [allocArr]
        rw [readArr_alloc _ _ hlen]
        exact h3

/-- The invariant of `filterPassSt_inv` is preserved through the whole
`forEach` loop. -/
theorem foldl_filterPassSt_inv (fv : FilterValues) (st : Store) {i : Nat}
    (hi : i < st.length) :
    ∀ (ks : List Key) (acc : Store × Nat),
      st.length ≤ acc.1.length → st.length ≤ acc.2 → readArr acc.1 i = readArr st i →
      st.length ≤ (ks.foldl (filterPassSt fv) acc).1.length ∧
      st.length ≤ (ks.foldl (filterPassSt fv) acc).2 ∧
      readArr (ks.foldl (filterPassSt fv) acc).1 i = readArr st i := by
  intro ks
  induction ks with
  | nil => intro acc h1 h2 h3; exact ⟨h1, h2, h3⟩
  | cons k ks ih =>
    intro acc h1 h2 h3
    rw [List.foldl_cons]
    obtain ⟨g1, g2, g3⟩ := filterPassSt_inv fv st hi acc k h1 h2 h3
    exact ih _ g1 g2 g3

/-- C7: Deriving the processed view never mutates its inputs. At the store
level, computing `processedData` from the array held at `dataRef` leaves that
array's contents — its record elements, in their order — exactly as they
were: the copy and every filter pass allocate fresh arrays, and the in-place
`sort` writes only the freshly allocated array. (Record objects themselves
are plain values here; no statement of the component assigns to a record
field.) -/
theorem processedData_frame (st : Store) (dataRef : Nat) (fv : FilterValues)
    (sc : SortConfig) (h : dataRef < st.length) :
    readArr (processedDataSt st dataRef fv sc).1 dataRef = readArr st dataRef := by
  have c1 : st.length ≤ (allocArr st (readArr st dataRef)).1.length := by
    simp [allocArr]
  have c2 : st.length ≤ (allocArr st (readArr st dataRef)).2 := by
    simp [allocArr]
  have c3 : readArr (allocArr st (readArr st dataRef)).1 dataRef = readArr st dataRef :=
    readArr_alloc st _ h
  obtain ⟨g1, g2, g3⟩ :=
    foldl_filterPassSt_inv fv st h columnKeys (allocArr st (readArr st dataRef)) c1 c2 c3
  simp only [processedDataSt]
  cases hk : sc.key with
  | none => exact g3
  | some k =>
    have hne : dataRef ≠ (columnKeys.foldl (filterPassSt fv)
        (allocArr st (readArr st dataRef))).2 := by omega
    rw [readArr_write_ne _ _ _ hne]
    exact g3

/-- Witness for C7 at a concrete store holding one two-record array. -/
theorem processedData_frame_witness :
    readArr (processedDataSt
        [[⟨some "2024-01-01", "A", 10, true⟩, ⟨none, "B", 5, false⟩]] 0
        (fun _ => none) initialSortConfig).1 0
      = readArr [[⟨some "2024-01-01", "A", 10, true⟩, ⟨none, "B", 5, false⟩]] 0 :=
  processedData_frame [[⟨some "2024-01-01", "A", 10, true⟩, ⟨none, "B", 5, false⟩]] 0
    (fun _ => none) initialSortConfig (by simp)

end DataDashboard
